import Mathlib

/-!
Shallow embedding of the bubble-packing core of the Axelarscan dashboard
(`src/pages/3_💸Cross-Chain_Flows.py`): the functions `pack_bubbles`
(lines 115-134) and `bubble_size_category` (lines 137-179), together with
theorems settling the claims of the specification about them.

Modelling conventions:
* Float scalars are embedded as exact rationals (`ℚ`); float rounding is
  idealised away, as the spec reasons in real arithmetic.
* `np.hypot` computes a square root, which has no exact rational value in
  general, so the engine is parametrised by a function `hyp : ℚ → ℚ → ℚ`;
  theorems that depend on its value certify it at the points where the
  engine actually calls it (`hyp dx dy = d` with `d ^ 2 = dx ^ 2 + dy ^ 2`,
  `0 ≤ d`).
* `np.random.rand` draws from the global NumPy stream; the engine is
  parametrised by the stream `rand : ℕ → ℚ` and threads the index of the
  next draw through the computation, exactly in the order the source
  consumes draws (2n for the initial positions, then 2 per zero-distance
  redraw).
* A float division by a zero maximum produces a non-finite radius
  (`0/0 = NaN`, `s/0 = ±inf` for `s < 0`); such radii are modelled as
  `none`.  Every float comparison `dist < min_dist` with a non-finite
  `min_dist` is false, which the embedded overlap test reflects.
* `np.max` of an empty array raises `ValueError`; `pack_bubbles` is
  therefore `Option`-valued and returns `none` exactly on empty input.
-/

namespace Axelarscan

/-- The padding constant `0.005` from `min_dist = radii[i]+radii[j]+0.005`
(line 125 of the source). -/
def padding : ℚ := 5 / 1000

/-- Binary maximum, written with an explicit comparison so that closed
instances evaluate by kernel reduction; equal to `max` on `ℚ`
(`maxQ_eq_max`). -/
def maxQ (a b : ℚ) : ℚ := if a ≤ b then b else a

/-- Model of `np.max` over a nonempty list of scalars (the empty case is never used:
`pack_bubbles` returns `none` on empty input, modelling the `ValueError`
that `np.max` raises there). -/
def maxOf : List ℚ → ℚ
  | [] => 0
  | s :: t => t.foldl maxQ s

/-- The radius computation `radii = sizes/2/np.max(sizes)*0.1` (line 118).  When the maximum is
zero the float division is by zero and every radius is non-finite
(`0/0 = NaN`), modelled as `none`. -/
def radiiOf (sizes : List ℚ) : List (Option ℚ) :=
  let m := maxOf sizes
  sizes.map (fun s => if m = 0 then none else some (s / 2 / m * (1 / 10)))

/-- Model of `np.clip(x, 0, 1)` on one scalar (line 133): values below `0` go to
`0`, values above `1` go to `1`, the rest are unchanged. -/
def clip01 (x : ℚ) : ℚ := if x < 0 then 0 else if 1 < x then 1 else x

/-- The initialisation `positions = np.random.rand(n,2)*0.8+0.1` (line 117): row `i` of the
random matrix consumes stream entries `2*i` and `2*i+1`. -/
def initPositions (rand : ℕ → ℚ) (n : ℕ) : List (ℚ × ℚ) :=
  (List.range n).map
    (fun i => (rand (2 * i) * (8 / 10) + 1 / 10,
               rand (2 * i + 1) * (8 / 10) + 1 / 10))

/-- The index pairs visited by `for i in range(n): for j in range(i+1,n)`
(lines 120-121), in the iteration order of the source. -/
def pairList (n : ℕ) : List (ℕ × ℕ) :=
  (List.range n).flatMap (fun i => ((List.range n).drop (i + 1)).map (fun j => (i, j)))

/-- The body of the inner pair loop (lines 122-132).  The state is the
position list together with the index of the next unconsumed random draw.
When the `min_dist` of the pair is non-finite (`none`), the float comparison
`dist < min_dist` is false and nothing happens.  When `dist == 0` the
source redraws `dx, dy` from the stream, recomputes `dist` as their norm,
and proceeds with the redrawn values. -/
def step (hyp : ℚ → ℚ → ℚ) (rand : ℕ → ℚ) (radii : List (Option ℚ))
    (st : List (ℚ × ℚ) × ℕ) (ij : ℕ × ℕ) : List (ℚ × ℚ) × ℕ :=
  let ps := st.1
  let k := st.2
  let p := ps.getD ij.1 (0, 0)
  let q := ps.getD ij.2 (0, 0)
  let dx := q.1 - p.1
  let dy := q.2 - p.2
  let dist := hyp dx dy
  match radii.getD ij.1 none, radii.getD ij.2 none with
  | some ri, some rj =>
    let mind := ri + rj + padding
    if dist < mind then
      if dist = 0 then
        let dx2 := rand k - 1 / 2
        let dy2 := rand (k + 1) - 1 / 2
        let d2 := hyp dx2 dy2
        let s := (mind - d2) / 2
        ((ps.set ij.1 (p.1 - dx2 / d2 * s, p.2 - dy2 / d2 * s)).set ij.2
          (q.1 + dx2 / d2 * s, q.2 + dy2 / d2 * s), k + 2)
      else
        let s := (mind - dist) / 2
        ((ps.set ij.1 (p.1 - dx / dist * s, p.2 - dy / dist * s)).set ij.2
          (q.1 + dx / dist * s, q.2 + dy / dist * s), k)
    else (ps, k)
  | _, _ => (ps, k)

/-- One full pass of the outer iteration (lines 120-133): visit every pair
`(i, j)` with `i < j`, then clip all positions into `[0,1]`. -/
def onePass (hyp : ℚ → ℚ → ℚ) (rand : ℕ → ℚ) (radii : List (Option ℚ))
    (n : ℕ) (st : List (ℚ × ℚ) × ℕ) : List (ℚ × ℚ) × ℕ :=
  let st2 := (pairList n).foldl (step hyp rand radii) st
  (st2.1.map (fun p => (clip01 p.1, clip01 p.2)), st2.2)

/-- The outer loop `for _ in range(iterations)` (line 119): apply `onePass` the given
number of times. -/
def iteratePass (hyp : ℚ → ℚ → ℚ) (rand : ℕ → ℚ) (radii : List (Option ℚ))
    (n : ℕ) : ℕ → List (ℚ × ℚ) × ℕ → List (ℚ × ℚ) × ℕ
  | 0, st => st
  | k + 1, st => iteratePass hyp rand radii n k (onePass hyp rand radii n st)

/-- Model of `pack_bubbles(sizes, iterations=3000)` (lines 115-134).  Returns the
pair of coordinate columns `positions[:,0], positions[:,1]`, or `none` on
empty input where `np.max(sizes)` raises `ValueError`. -/
def pack_bubbles (hyp : ℚ → ℚ → ℚ) (rand : ℕ → ℚ) (sizes : List ℚ)
    (iterations : ℕ := 3000) : Option (List ℚ × List ℚ) :=
  let n := sizes.length
  let init := initPositions rand n
  if sizes.isEmpty then none
  else
    let radii := radiiOf sizes
    let stF := iteratePass hyp rand radii n iterations (init, 2 * n)
    some (stF.1.map Prod.fst, stF.1.map Prod.snd)

/-- Model of `bubble_size_category(v)` (lines 137-179): bucketed step mapping from a
net volume to a marker size. -/
def bubble_size_category (v : ℚ) : ℚ :=
  let abs_v := |v|
  if abs_v < 10 then 20
  else if abs_v < 100 then 30
  else if abs_v < 1000 then 40
  else if abs_v < 10000 then 50
  else if abs_v < 100000 then 60
  else if abs_v < 200000 then 62
  else if abs_v < 400000 then 64
  else if abs_v < 600000 then 66
  else if abs_v < 800000 then 68
  else if abs_v < 1000000 then 70
  else if abs_v < 2000000 then 72
  else if abs_v < 4000000 then 74
  else if abs_v < 6000000 then 76
  else if abs_v < 8000000 then 78
  else if abs_v < 10000000 then 80
  else if abs_v < 12000000 then 82
  else if abs_v < 14000000 then 84
  else if abs_v < 16000000 then 86
  else if abs_v < 18000000 then 88
  else if abs_v < 20000000 then 90
  else if abs_v < 25000000 then 92
  else if abs_v < 30000000 then 94
  else if abs_v < 35000000 then 96
  else if abs_v < 40000000 then 98
  else if abs_v < 45000000 then 99
  else if abs_v < 50000000 then 100
  else if abs_v < 60000000 then 110
  else if abs_v < 70000000 then 120
  else if abs_v < 80000000 then 130
  else if abs_v < 90000000 then 135
  else if abs_v < 100000000 then 140
  else if abs_v < 110000000 then 145
  else if abs_v < 120000000 then 150
  else if abs_v < 130000000 then 155
  else if abs_v < 140000000 then 160
  else if abs_v < 150000000 then 165
  else if abs_v < 160000000 then 170
  else if abs_v < 170000000 then 175
  else if abs_v < 180000000 then 180
  else if abs_v < 190000000 then 185
  else 190

/-- A hypot oracle that is only ever queried at `(0, 0)`, where the
Euclidean norm is `0`. -/
def hypZero : ℚ → ℚ → ℚ := fun _ _ => 0

/-- An arbitrary concrete random stream for closed instances. -/
def rzero : ℕ → ℚ := fun _ => 0

/-- Hypot oracle for the C6 counterexample: honest at the two points the
engine queries, `(0,0) ↦ 0` and `(3/10, 2/5) ↦ √(9/100+4/25) = 1/2`. -/
def hypC6 : ℚ → ℚ → ℚ := fun a b => if a = 0 ∧ b = 0 then 0 else 1 / 2

/-- Random stream for the C6 counterexample: the zero-distance redraw
reads `4/5` and `9/10`, giving the displacement `(3/10, 2/5)` of norm
`1/2`. -/
def randC6 : ℕ → ℚ := fun k => if k = 0 then 4 / 5 else 9 / 10

/-- Hypot oracle for the C1 counterexample: honest at the two points the
engine queries, `(0,0) ↦ 0` and `(63/1000, 21/250) ↦ √(63²+84²)/1000 =
105/1000 = 21/200`. -/
def hypC1 : ℚ → ℚ → ℚ := fun a b => if a = 0 ∧ b = 0 then 0 else 21 / 200

/-- Random stream for the C1 counterexample: every even draw is
`563/1000`, every odd draw `584/1000`, so both items start at the same
point and every redraw has norm exactly `min_dist`, leaving the items
coincident forever. -/
def randC1 : ℕ → ℚ := fun k => if k % 2 = 0 then 563 / 1000 else 584 / 1000

/-- Hypot oracle for the two-item witness: honest at the two points the
engine queries, `(3/100, 1/25) ↦ 1/20` and `(63/1000, 21/250) ↦ 21/200`
(both Pythagorean). -/
def hypW : ℚ → ℚ → ℚ := fun a b =>
  if a = 3 / 100 ∧ b = 1 / 25 then 1 / 20
  else if a = 63 / 1000 ∧ b = 21 / 250 then 21 / 200
  else 0

/-- Random stream for the two-item witness: initial positions
`(2/5, 2/5)` and `(43/100, 44/100)`. -/
def randW : ℕ → ℚ := fun k =>
  if k = 0 then 3 / 8 else if k = 1 then 3 / 8
  else if k = 2 then 33 / 80 else 17 / 40

/-- Proof infrastructure: a threshold table interpreted by `lookupB`.  It
is definitionally equal to the if-tower of `bubble_size_category` (theorem
`bubble_size_category_eq_lookup`), which keeps the case analysis
tractable. -/
def lookupB : List (ℚ × ℚ) → ℚ → ℚ
  | [], _ => 190
  | (t, c) :: rest, x => if x < t then c else lookupB rest x

/-- The 40 `(threshold, size)` buckets of `bubble_size_category`, in source
order. -/
def bscB : List (ℚ × ℚ) :=
  [(10, 20), (100, 30), (1000, 40), (10000, 50), (100000, 60),
   (200000, 62), (400000, 64), (600000, 66), (800000, 68), (1000000, 70),
   (2000000, 72), (4000000, 74), (6000000, 76), (8000000, 78), (10000000, 80),
   (12000000, 82), (14000000, 84), (16000000, 86), (18000000, 88), (20000000, 90),
   (25000000, 92), (30000000, 94), (35000000, 96), (40000000, 98), (45000000, 99),
   (50000000, 100), (60000000, 110), (70000000, 120), (80000000, 130), (90000000, 135),
   (100000000, 140), (110000000, 145), (120000000, 150), (130000000, 155), (140000000, 160),
   (150000000, 165), (160000000, 170), (170000000, 175), (180000000, 180), (190000000, 185)]

theorem bubble_size_category_eq_lookup (v : ℚ) :
    bubble_size_category v = lookupB bscB |v| := rfl

theorem lookupB_default_of_le (L : List (ℚ × ℚ)) (x : ℚ)
    (h : ∀ p ∈ L, p.1 ≤ x) : lookupB L x = 190 := by
  induction L with
  | nil => rfl
  | cons p rest ih =>
    obtain ⟨t, c⟩ := p
    have ht : t ≤ x := h (t, c) (List.mem_cons_self _ _)
    simp only [lookupB, if_neg (not_lt.mpr ht)]
    exact ih (fun q hq => h q (List.mem_cons_of_mem _ hq))

theorem le_lookupB (c : ℚ) (L : List (ℚ × ℚ)) (x : ℚ)
    (hc : ∀ v ∈ L.map Prod.snd ++ [190], c ≤ v) : c ≤ lookupB L x := by
  induction L with
  | nil => exact hc 190 (by simp)
  | cons p rest ih =>
    obtain ⟨t, d⟩ := p
    simp only [lookupB]
    split_ifs
    · exact hc d (by simp)
    · exact ih (fun v hv => hc v (by simpa using Or.inr (by simpa using hv)))

theorem lookupB_le (c : ℚ) (L : List (ℚ × ℚ)) (x : ℚ)
    (hc : ∀ v ∈ L.map Prod.snd ++ [190], v ≤ c) : lookupB L x ≤ c := by
  induction L with
  | nil => exact hc 190 (by simp)
  | cons p rest ih =>
    obtain ⟨t, d⟩ := p
    simp only [lookupB]
    split_ifs
    · exact hc d (by simp)
    · exact ih (fun v hv => hc v (by simpa using Or.inr (by simpa using hv)))

theorem lookupB_mono (L : List (ℚ × ℚ)) (x y : ℚ)
    (hs : (L.map Prod.snd ++ [190]).Sorted (· ≤ ·)) (hxy : x ≤ y) :
    lookupB L x ≤ lookupB L y := by
  induction L with
  | nil => exact le_refl _
  | cons p rest ih =>
    obtain ⟨t, c⟩ := p
    simp only [List.map_cons, List.cons_append, List.sorted_cons] at hs
    obtain ⟨hcle, hrest⟩ := hs
    simp only [lookupB]
    split_ifs with hx hy hy
    · exact le_refl _
    · exact le_lookupB c rest y (fun v hv => hcle v hv)
    · exact absurd (lt_of_le_of_lt hxy hy) hx
    · exact ih hrest

theorem bscB_vals_sorted : (bscB.map Prod.snd ++ [190]).Sorted (· ≤ ·) := by
  decide

theorem bscB_vals_ge : ∀ v ∈ bscB.map Prod.snd ++ [(190 : ℚ)], 20 ≤ v := by
  decide

theorem bscB_vals_le : ∀ v ∈ bscB.map Prod.snd ++ [(190 : ℚ)], v ≤ 190 := by
  decide

theorem bscB_thresh_le : ∀ p ∈ bscB, p.1 ≤ (190000000 : ℚ) := by decide

/-- C9: `bubble_size_category` is bounded in `[20, 190]`, returns the
minimum `20` below absolute value `10` and the maximum `190` from absolute
value `190000000` on. -/
theorem bubble_size_category_range (v : ℚ) :
    (20 ≤ bubble_size_category v ∧ bubble_size_category v ≤ 190) ∧
    (|v| < 10 → bubble_size_category v = 20) ∧
    (190000000 ≤ |v| → bubble_size_category v = 190) := by
  rw [bubble_size_category_eq_lookup]
  refine ⟨⟨le_lookupB _ _ _ bscB_vals_ge, lookupB_le _ _ _ bscB_vals_le⟩, ?_, ?_⟩
  · intro h
    simp [bscB, lookupB, h]
  · intro h
    exact lookupB_default_of_le _ _
      (fun p hp => le_trans (bscB_thresh_le p hp) h)

/-- Witness for C9 at concrete inputs. -/
theorem bubble_size_category_range_witness :
    bubble_size_category 5 = 20 ∧ bubble_size_category 200000000 = 190 := by
  constructor
  · exact (bubble_size_category_range 5).2.1 (by norm_num)
  · exact (bubble_size_category_range 200000000).2.2 (by norm_num)

/-- C10: `bubble_size_category` depends only on the absolute value of its
argument: negating the input leaves the bubble size unchanged. -/
theorem bubble_size_category_neg (v : ℚ) :
    bubble_size_category (-v) = bubble_size_category v := by
  rw [bubble_size_category_eq_lookup, bubble_size_category_eq_lookup, abs_neg]

/-- C2: on an empty input `pack_bubbles` does not return an empty layout:
`np.max` of the empty size array raises `ValueError` (modelled as `none`),
for every hypot oracle, random stream and iteration budget. -/
theorem pack_bubbles_empty_raises (hyp : ℚ → ℚ → ℚ) (rand : ℕ → ℚ) (its : ℕ) :
    pack_bubbles hyp rand [] its = none := rfl

/-- C8 counterexample: the claim includes the empty sequence among the
well-formed inputs on which `pack_bubbles` never raises, but at the
explicit input `[]` the call raises (returns no layout). -/
theorem pack_bubbles_empty_no_layout :
    (pack_bubbles hypZero rzero [] 3000).isSome = false := rfl

/-- C8 (amended): for every NONEMPTY input and every iteration budget,
`pack_bubbles` runs to completion and returns a layout; residual overlap
is approximation, never an error. -/
theorem pack_bubbles_total_of_ne_nil (hyp : ℚ → ℚ → ℚ) (rand : ℕ → ℚ)
    (sizes : List ℚ) (its : ℕ) (hne : sizes ≠ []) :
    (pack_bubbles hyp rand sizes its).isSome = true := by
  cases sizes with
  | nil => exact absurd rfl hne
  | cons s t => simp [pack_bubbles]

/-- Witness for the amended C8 at a concrete nonempty input. -/
theorem pack_bubbles_total_of_ne_nil_witness :
    [(1 : ℚ), 2] ≠ [] ∧ (pack_bubbles hypZero rzero [1, 2] 2).isSome = true :=
  ⟨by decide, pack_bubbles_total_of_ne_nil hypZero rzero [1, 2] 2 (by decide)⟩

/-- C5: `pack_bubbles` is deterministic: the output depends only on the
random stream (the seeded generator state), the input sizes and the
iteration budget, so two invocations reading equal random streams return
identical positions. -/
theorem pack_bubbles_deterministic (hyp : ℚ → ℚ → ℚ) (rand1 rand2 : ℕ → ℚ)
    (sizes : List ℚ) (its : ℕ) (h : ∀ k, rand1 k = rand2 k) :
    pack_bubbles hyp rand1 sizes its = pack_bubbles hyp rand2 sizes its := by
  have hr : rand1 = rand2 := funext h
  rw [hr]

/-- Witness for C5: two syntactically different but pointwise equal
streams give identical layouts. -/
theorem pack_bubbles_deterministic_witness :
    pack_bubbles hypZero rzero [2, 3] 2 =
      pack_bubbles hypZero (fun k => if k < 0 then 1 else 0) [2, 3] 2 :=
  pack_bubbles_deterministic hypZero rzero (fun k => if k < 0 then 1 else 0)
    [2, 3] 2 (fun k => by simp [rzero])

theorem maxQ_eq_max (a b : ℚ) : maxQ a b = max a b := (max_def a b).symm

theorem clip01_mem (x : ℚ) : 0 ≤ clip01 x ∧ clip01 x ≤ 1 := by
  unfold clip01
  split_ifs <;> constructor <;> linarith

theorem iteratePass_succ_shape (hyp : ℚ → ℚ → ℚ) (rand : ℕ → ℚ)
    (radii : List (Option ℚ)) (n : ℕ) (k : ℕ) (st : List (ℚ × ℚ) × ℕ) :
    ∃ st2, iteratePass hyp rand radii n (k + 1) st =
      onePass hyp rand radii n st2 := by
  induction k generalizing st with
  | zero => exact ⟨st, rfl⟩
  | succ m ih => exact ih (onePass hyp rand radii n st)

/-- C4: whenever `pack_bubbles` runs at least one pass, every returned
coordinate lies in the unit square: the pass ends with
`np.clip(positions, 0, 1)`. -/
theorem pack_bubbles_bounds (hyp : ℚ → ℚ → ℚ) (rand : ℕ → ℚ)
    (sizes : List ℚ) (its : ℕ) (xs ys : List ℚ) (hits : 1 ≤ its)
    (hout : pack_bubbles hyp rand sizes its = some (xs, ys)) :
    (∀ x ∈ xs, 0 ≤ x ∧ x ≤ 1) ∧ (∀ y ∈ ys, 0 ≤ y ∧ y ≤ 1) := by
  obtain ⟨k, rfl⟩ : ∃ k, its = k + 1 := ⟨its - 1, by omega⟩
  cases hb : sizes.isEmpty with
  | true => simp [pack_bubbles, hb] at hout
  | false =>
    simp only [pack_bubbles, hb, Bool.false_eq_true, if_false,
      Option.some.injEq] at hout
    obtain ⟨st2, hst⟩ := iteratePass_succ_shape hyp rand (radiiOf sizes)
      sizes.length k (initPositions rand sizes.length, 2 * sizes.length)
    rw [hst] at hout
    rw [Prod.mk.injEq] at hout
    obtain ⟨hx, hy⟩ := hout
    constructor
    · intro x hxm
      rw [← hx] at hxm
      simp only [onePass, List.map_map, List.mem_map] at hxm
      obtain ⟨p, _, rfl⟩ := hxm
      exact clip01_mem _
    · intro y hym
      rw [← hy] at hym
      simp only [onePass, List.map_map, List.mem_map] at hym
      obtain ⟨p, _, rfl⟩ := hym
      exact clip01_mem _

/-- Witness for C4 at a concrete input: one item, one pass. -/
theorem pack_bubbles_bounds_witness :
    (1 ≤ 1 ∧ pack_bubbles hypZero rzero [1] 1 = some ([1 / 10], [1 / 10])) ∧
    (∀ x ∈ [(1 : ℚ) / 10], 0 ≤ x ∧ x ≤ 1) := by
  have h : pack_bubbles hypZero rzero [1] 1 = some ([1 / 10], [1 / 10]) := by
    norm_num [pack_bubbles, initPositions, iteratePass, onePass, pairList,
      radiiOf, maxOf, clip01, rzero, List.range_succ]
  exact ⟨⟨le_refl 1, h⟩,
    (pack_bubbles_bounds hypZero rzero [1] 1 [1 / 10] [1 / 10] (le_refl 1) h).1⟩

theorem le_foldl_maxQ (t : List ℚ) :
    ∀ b : ℚ, b ≤ t.foldl maxQ b ∧ ∀ x ∈ t, x ≤ t.foldl maxQ b := by
  induction t with
  | nil => intro b; simp
  | cons h tl ih =>
    intro b
    simp only [List.foldl_cons]
    have hb : b ≤ maxQ b h := by rw [maxQ_eq_max]; exact le_max_left _ _
    have hh : h ≤ maxQ b h := by rw [maxQ_eq_max]; exact le_max_right _ _
    refine ⟨le_trans hb (ih (maxQ b h)).1, ?_⟩
    intro x hx
    rcases List.mem_cons.mp hx with hxh | hxt
    · subst hxh; exact le_trans hh (ih (maxQ b x)).1
    · exact (ih (maxQ b h)).2 x hxt

theorem le_maxOf (sizes : List ℚ) (x : ℚ) (hx : x ∈ sizes) : x ≤ maxOf sizes := by
  cases sizes with
  | nil => cases hx
  | cons s t =>
    rcases List.mem_cons.mp hx with hxs | hxt
    · exact hxs ▸ (le_foldl_maxQ t s).1
    · exact (le_foldl_maxQ t s).2 x hxt

theorem radiiOf_getD (sizes : List ℚ) (i : ℕ) (hi : i < sizes.length) :
    (radiiOf sizes).getD i none =
      if maxOf sizes = 0 then none
      else some (sizes.getD i 0 / 2 / maxOf sizes * (1 / 10)) := by
  unfold radiiOf
  have hi2 : i < (sizes.map (fun s =>
      if maxOf sizes = 0 then none
      else some (s / 2 / maxOf sizes * (1 / 10)))).length := by simpa
  rw [List.getD_eq_getElem _ _ hi2, List.getElem_map,
    List.getD_eq_getElem _ _ hi]

/-- C7: the size mapping is monotone non-decreasing in the magnitude, both
for `bubble_size_category` and for the per-item radii `sizes/2/max*0.1`
computed inside `pack_bubbles` (whenever those radii are finite). -/
theorem size_mapping_monotone :
    (∀ m1 m2 : ℚ, 0 ≤ m1 → m1 < m2 →
      bubble_size_category m1 ≤ bubble_size_category m2) ∧
    (∀ (sizes : List ℚ) (i j : ℕ) (r1 r2 : ℚ),
      i < sizes.length → j < sizes.length →
      0 ≤ sizes.getD i 0 → sizes.getD i 0 < sizes.getD j 0 →
      (radiiOf sizes).getD i none = some r1 →
      (radiiOf sizes).getD j none = some r2 → r1 ≤ r2) := by
  constructor
  · intro m1 m2 h0 hlt
    rw [bubble_size_category_eq_lookup, bubble_size_category_eq_lookup,
      abs_of_nonneg h0, abs_of_nonneg (le_of_lt (lt_of_le_of_lt h0 hlt))]
    exact lookupB_mono _ _ _ bscB_vals_sorted (le_of_lt hlt)
  · intro sizes i j r1 r2 hi hj h0 hlt hr1 hr2
    rw [radiiOf_getD _ _ hi] at hr1
    rw [radiiOf_getD _ _ hj] at hr2
    by_cases hm : maxOf sizes = 0
    · rw [if_pos hm] at hr1; cases hr1
    · rw [if_neg hm] at hr1 hr2
      have hjmem : sizes.getD j 0 ∈ sizes := by
        rw [List.getD_eq_getElem _ _ hj]; exact List.getElem_mem hj
      have hm0 : 0 < maxOf sizes :=
        lt_of_lt_of_le (lt_of_le_of_lt h0 hlt) (le_maxOf sizes _ hjmem)
      rw [← Option.some_inj.mp hr1, ← Option.some_inj.mp hr2]
      gcongr

/-- Witness for C7 at concrete inputs. -/
theorem size_mapping_monotone_witness :
    bubble_size_category 5 ≤ bubble_size_category 500 ∧
    (1 : ℚ) / 40 ≤ 1 / 20 := by
  constructor
  · exact size_mapping_monotone.1 5 500 (by norm_num) (by norm_num)
  · exact size_mapping_monotone.2 [1, 2] 0 1 (1 / 40) (1 / 20)
      (by norm_num) (by norm_num) (by simp) (by simp)
      (by norm_num [radiiOf, maxOf, maxQ]) (by norm_num [radiiOf, maxOf, maxQ])

theorem step_of_radii_none (hyp : ℚ → ℚ → ℚ) (rand : ℕ → ℚ)
    (radii : List (Option ℚ)) (st : List (ℚ × ℚ) × ℕ) (ij : ℕ × ℕ)
    (h1 : radii.getD ij.1 none = none) :
    step hyp rand radii st ij = st := by
  unfold step
  rw [h1]

theorem foldl_fixed_of_mem {α β : Type} (f : α → β → α) (l : List β) (a : α)
    (h : ∀ b ∈ l, ∀ x, f x b = x) : l.foldl f a = a := by
  induction l generalizing a with
  | nil => rfl
  | cons b t ih =>
    rw [List.foldl_cons, h b (List.mem_cons_self _ _) a]
    exact ih a (fun c hc x => h c (List.mem_cons_of_mem _ hc) x)

theorem clip01_idem (x : ℚ) : clip01 (clip01 x) = clip01 x := by
  unfold clip01
  split_ifs <;> first | rfl | linarith

theorem radiiOf_zero3 : radiiOf [0, 0, 0] = [none, none, none] := by
  norm_num [radiiOf, maxOf, maxQ]

theorem onePass_of_radii_none (hyp : ℚ → ℚ → ℚ) (rand : ℕ → ℚ)
    (radii : List (Option ℚ)) (n : ℕ) (st : List (ℚ × ℚ) × ℕ)
    (h : ∀ i, radii.getD i none = none) :
    onePass hyp rand radii n st =
      (st.1.map (fun p => (clip01 p.1, clip01 p.2)), st.2) := by
  unfold onePass
  rw [foldl_fixed_of_mem _ _ _
    (fun ij _ x => step_of_radii_none hyp rand radii x ij (h ij.1))]

theorem iteratePass_of_radii_none (hyp : ℚ → ℚ → ℚ) (rand : ℕ → ℚ)
    (radii : List (Option ℚ)) (n : ℕ) (k : ℕ) (st : List (ℚ × ℚ) × ℕ)
    (h : ∀ i, radii.getD i none = none) :
    iteratePass hyp rand radii n (k + 1) st =
      (st.1.map (fun p => (clip01 p.1, clip01 p.2)), st.2) := by
  induction k generalizing st with
  | zero => exact onePass_of_radii_none hyp rand radii n st h
  | succ m ih =>
    show iteratePass hyp rand radii n (m + 1) (onePass hyp rand radii n st) = _
    rw [ih (onePass hyp rand radii n st),
      onePass_of_radii_none hyp rand radii n st h]
    simp [List.map_map, Function.comp_def, clip01_idem]

/-- C3 (the code at the degenerate input given by the spec): with every magnitude
zero there is no guard against the zero maximum; the float division
`0/2/0*0.1` makes every radius non-finite (`NaN`, modelled `none`), every
overlap test `dist < NaN` is false, and `pack_bubbles` returns the
clamped initial random positions unchanged — it does not fall back to
equal finite minimum radii. -/
theorem pack_bubbles_all_zero_radii (hyp : ℚ → ℚ → ℚ) (rand : ℕ → ℚ) (k : ℕ) :
    radiiOf [0, 0, 0] = [none, none, none] ∧
    pack_bubbles hyp rand [0, 0, 0] (k + 1) =
      some ((initPositions rand 3).map (fun p => clip01 p.1),
            (initPositions rand 3).map (fun p => clip01 p.2)) := by
  refine ⟨radiiOf_zero3, ?_⟩
  have hnone : ∀ i, ([none, none, none] : List (Option ℚ)).getD i none = none := by
    intro i
    match i with
    | 0 => rfl
    | 1 => rfl
    | 2 => rfl
    | n + 3 => rfl
  simp only [pack_bubbles, List.isEmpty_cons, List.length_cons,
    List.length_nil, Bool.false_eq_true, if_false, radiiOf_zero3]
  rw [iteratePass_of_radii_none hyp rand _ _ _ _ hnone]
  simp [List.map_map, Function.comp_def]

theorem step_fires_eval (hyp : ℚ → ℚ → ℚ) (rand : ℕ → ℚ)
    (radii : List (Option ℚ)) (ps : List (ℚ × ℚ)) (k i j : ℕ)
    (px py qx qy ri rj d : ℚ)
    (hpi : ps.getD i (0, 0) = (px, py)) (hpj : ps.getD j (0, 0) = (qx, qy))
    (hri : radii.getD i none = some ri) (hrj : radii.getD j none = some rj)
    (hd : hyp (qx - px) (qy - py) = d) (hdpos : 0 < d)
    (hov : d < ri + rj + padding) :
    step hyp rand radii (ps, k) (i, j) =
      ((ps.set i (px - (qx - px) / d * ((ri + rj + padding - d) / 2),
                  py - (qy - py) / d * ((ri + rj + padding - d) / 2))).set j
        (qx + (qx - px) / d * ((ri + rj + padding - d) / 2),
         qy + (qy - py) / d * ((ri + rj + padding - d) / 2)), k) := by
  unfold step
  simp only [hpi, hpj, hri, hrj, hd]
  rw [if_pos hov, if_neg (ne_of_gt hdpos)]

theorem step_still_eval (hyp : ℚ → ℚ → ℚ) (rand : ℕ → ℚ)
    (radii : List (Option ℚ)) (ps : List (ℚ × ℚ)) (k i j : ℕ)
    (px py qx qy ri rj d : ℚ)
    (hpi : ps.getD i (0, 0) = (px, py)) (hpj : ps.getD j (0, 0) = (qx, qy))
    (hri : radii.getD i none = some ri) (hrj : radii.getD j none = some rj)
    (hd : hyp (qx - px) (qy - py) = d) (hnov : ¬ d < ri + rj + padding) :
    step hyp rand radii (ps, k) (i, j) = (ps, k) := by
  unfold step
  simp only [hpi, hpj, hri, hrj, hd]
  rw [if_neg hnov]

theorem norm_scale_sq (dx dy d c : ℚ) (hd0 : d ≠ 0)
    (hcert : d ^ 2 = dx ^ 2 + dy ^ 2) :
    (dx / d * c) ^ 2 + (dy / d * c) ^ 2 = c ^ 2 := by
  field_simp
  linear_combination c ^ 2 * hcert.symm

/-- C6 (amended): when the overlap step fires on a pair at POSITIVE
distance `d < radius(i) + radius(j) + padding`, it pushes the two items
apart along the line joining their centres, each by half the deficit, and
the squared distance immediately after the step is exactly
`(radius(i) + radius(j) + padding)²`.  (At `d = 0` the source reuses the
norm of a random redraw as the distance, and the exactness fails:
see the counterexample.) -/
theorem step_overlap_separates (hyp : ℚ → ℚ → ℚ) (rand : ℕ → ℚ)
    (radii : List (Option ℚ)) (ps : List (ℚ × ℚ)) (k i j : ℕ)
    (px py qx qy ri rj d : ℚ)
    (hij : i ≠ j) (hi : i < ps.length) (hj : j < ps.length)
    (hpi : ps.getD i (0, 0) = (px, py)) (hpj : ps.getD j (0, 0) = (qx, qy))
    (hri : radii.getD i none = some ri) (hrj : radii.getD j none = some rj)
    (hd : hyp (qx - px) (qy - py) = d) (hdpos : 0 < d)
    (hcert : d ^ 2 = (qx - px) ^ 2 + (qy - py) ^ 2)
    (hov : d < ri + rj + padding) :
    (step hyp rand radii (ps, k) (i, j)).1.getD i (0, 0) =
      (px - (qx - px) / d * ((ri + rj + padding - d) / 2),
       py - (qy - py) / d * ((ri + rj + padding - d) / 2)) ∧
    (step hyp rand radii (ps, k) (i, j)).1.getD j (0, 0) =
      (qx + (qx - px) / d * ((ri + rj + padding - d) / 2),
       qy + (qy - py) / d * ((ri + rj + padding - d) / 2)) ∧
    (((step hyp rand radii (ps, k) (i, j)).1.getD j (0, 0)).1 -
        ((step hyp rand radii (ps, k) (i, j)).1.getD i (0, 0)).1) ^ 2 +
      (((step hyp rand radii (ps, k) (i, j)).1.getD j (0, 0)).2 -
        ((step hyp rand radii (ps, k) (i, j)).1.getD i (0, 0)).2) ^ 2 =
      (ri + rj + padding) ^ 2 ∧
    (((step hyp rand radii (ps, k) (i, j)).1.getD i (0, 0)).1 - px) ^ 2 +
      (((step hyp rand radii (ps, k) (i, j)).1.getD i (0, 0)).2 - py) ^ 2 =
      ((ri + rj + padding - d) / 2) ^ 2 ∧
    (((step hyp rand radii (ps, k) (i, j)).1.getD j (0, 0)).1 - qx) ^ 2 +
      (((step hyp rand radii (ps, k) (i, j)).1.getD j (0, 0)).2 - qy) ^ 2 =
      ((ri + rj + padding - d) / 2) ^ 2 := by
  have hd0 : d ≠ 0 := ne_of_gt hdpos
  have he := step_fires_eval hyp rand radii ps k i j px py qx qy ri rj d
    hpi hpj hri hrj hd hdpos hov
  have hgi : (step hyp rand radii (ps, k) (i, j)).1.getD i (0, 0) =
      (px - (qx - px) / d * ((ri + rj + padding - d) / 2),
       py - (qy - py) / d * ((ri + rj + padding - d) / 2)) := by
    rw [he]
    rw [List.getD_eq_getElem _ _ (by simpa using hi),
      List.getElem_set_ne (by omega), List.getElem_set_self]
  have hgj : (step hyp rand radii (ps, k) (i, j)).1.getD j (0, 0) =
      (qx + (qx - px) / d * ((ri + rj + padding - d) / 2),
       qy + (qy - py) / d * ((ri + rj + padding - d) / 2)) := by
    rw [he]
    rw [List.getD_eq_getElem _ _ (by simpa using hj), List.getElem_set_self]
  refine ⟨hgi, hgj, ?_, ?_, ?_⟩
  · rw [hgi, hgj]
    have hx : (qx + (qx - px) / d * ((ri + rj + padding - d) / 2)) -
        (px - (qx - px) / d * ((ri + rj + padding - d) / 2)) =
        (qx - px) / d * (ri + rj + padding) := by
      field_simp
      ring
    have hy : (qy + (qy - py) / d * ((ri + rj + padding - d) / 2)) -
        (py - (qy - py) / d * ((ri + rj + padding - d) / 2)) =
        (qy - py) / d * (ri + rj + padding) := by
      field_simp
      ring
    rw [hx, hy]
    exact norm_scale_sq _ _ _ _ hd0 hcert
  · rw [hgi]
    have := norm_scale_sq (qx - px) (qy - py) d
      ((ri + rj + padding - d) / 2) hd0 hcert
    linear_combination this
  · rw [hgj]
    have := norm_scale_sq (qx - px) (qy - py) d
      ((ri + rj + padding - d) / 2) hd0 hcert
    linear_combination this

/-- Witness for the amended C6 at a concrete overlapping pair
(`d = 1/20 < 21/200 = min_dist`). -/
theorem step_overlap_separates_witness :
    (0 < (1 : ℚ) / 20 ∧ (1 : ℚ) / 20 < 1 / 20 + 1 / 20 + padding) ∧
    (((step hypW rzero [some (1 / 20), some (1 / 20)]
        ([(2 / 5, 2 / 5), (43 / 100, 44 / 100)], 6) (0, 1)).1.getD 1 (0, 0)).1 -
      ((step hypW rzero [some (1 / 20), some (1 / 20)]
        ([(2 / 5, 2 / 5), (43 / 100, 44 / 100)], 6) (0, 1)).1.getD 0 (0, 0)).1) ^ 2 +
    (((step hypW rzero [some (1 / 20), some (1 / 20)]
        ([(2 / 5, 2 / 5), (43 / 100, 44 / 100)], 6) (0, 1)).1.getD 1 (0, 0)).2 -
      ((step hypW rzero [some (1 / 20), some (1 / 20)]
        ([(2 / 5, 2 / 5), (43 / 100, 44 / 100)], 6) (0, 1)).1.getD 0 (0, 0)).2) ^ 2 =
      (1 / 20 + 1 / 20 + padding) ^ 2 :=
  ⟨⟨by norm_num, by norm_num [padding]⟩,
    (step_overlap_separates hypW rzero [some (1 / 20), some (1 / 20)]
      [(2 / 5, 2 / 5), (43 / 100, 44 / 100)] 6 0 1 (2 / 5) (2 / 5) (43 / 100)
      (44 / 100) (1 / 20) (1 / 20) (1 / 20) (by decide) (by decide) (by decide)
      rfl rfl rfl rfl (by norm_num [hypW]) (by norm_num) (by norm_num)
      (by norm_num [padding])).2.2.1⟩

/-- C6 counterexample: when the pair coincides (`d = 0`), the source
reuses the norm of the random redraw (`1/2` here) as the distance, so the
squared distance straight after the step is `(21/200 - 1/2)² = (79/200)²`,
NOT `min_dist² = (21/200)²` as the claim asserts. -/
theorem step_zero_distance_cex :
    ¬ ((((step hypC6 randC6 [some (1 / 20), some (1 / 20)]
          ([(1 / 2, 1 / 2), (1 / 2, 1 / 2)], 0) (0, 1)).1.getD 1 (0, 0)).1 -
        ((step hypC6 randC6 [some (1 / 20), some (1 / 20)]
          ([(1 / 2, 1 / 2), (1 / 2, 1 / 2)], 0) (0, 1)).1.getD 0 (0, 0)).1) ^ 2 +
       (((step hypC6 randC6 [some (1 / 20), some (1 / 20)]
          ([(1 / 2, 1 / 2), (1 / 2, 1 / 2)], 0) (0, 1)).1.getD 1 (0, 0)).2 -
        ((step hypC6 randC6 [some (1 / 20), some (1 / 20)]
          ([(1 / 2, 1 / 2), (1 / 2, 1 / 2)], 0) (0, 1)).1.getD 0 (0, 0)).2) ^ 2 =
       (1 / 20 + 1 / 20 + padding) ^ 2) := by
  have he : step hypC6 randC6 [some (1 / 20), some (1 / 20)]
      ([(1 / 2, 1 / 2), (1 / 2, 1 / 2)], 0) (0, 1) =
      ([(1 / 2 + 237 / 2000, 1 / 2 + 79 / 500),
        (1 / 2 - 237 / 2000, 1 / 2 - 79 / 500)], 2) := by
    norm_num [step, hypC6, randC6, padding]
  rw [he]
  norm_num [padding]

theorem onePassC1 (k : ℕ) (hk : k % 2 = 0) :
    onePass hypC1 randC1 [some (1 / 20), some (1 / 20)] 2
      ([(344 / 625, 709 / 1250), (344 / 625, 709 / 1250)], k) =
      ([(344 / 625, 709 / 1250), (344 / 625, 709 / 1250)], k + 2) := by
  have hk1 : (k + 1) % 2 = 1 := by omega
  unfold onePass
  rw [show pairList 2 = [(0, 1)] from by decide]
  simp only [List.foldl_cons, List.foldl_nil]
  norm_num [step, hypC1, randC1, hk, hk1, clip01, padding]

theorem iterC1 (m : ℕ) : ∀ k : ℕ, k % 2 = 0 →
    iteratePass hypC1 randC1 [some (1 / 20), some (1 / 20)] 2 m
      ([(344 / 625, 709 / 1250), (344 / 625, 709 / 1250)], k) =
      ([(344 / 625, 709 / 1250), (344 / 625, 709 / 1250)], k + 2 * m) := by
  induction m with
  | zero => intro k hk; simp [iteratePass]
  | succ n ih =>
    intro k hk
    show iteratePass hypC1 randC1 [some (1 / 20), some (1 / 20)] 2 n
      (onePass hypC1 randC1 [some (1 / 20), some (1 / 20)] 2
        ([(344 / 625, 709 / 1250), (344 / 625, 709 / 1250)], k)) = _
    rw [onePassC1 k hk, ih (k + 2) (by omega)]
    have : k + 2 + 2 * n = k + 2 * (n + 1) := by ring
    rw [this]

theorem packC1_const (its : ℕ) :
    pack_bubbles hypC1 randC1 [1, 1] its =
      some ([344 / 625, 344 / 625], [709 / 1250, 709 / 1250]) := by
  have hinit : initPositions randC1 2 =
      [(344 / 625, 709 / 1250), (344 / 625, 709 / 1250)] := by
    norm_num [initPositions, randC1, List.range_succ]
  have hrad : radiiOf [1, 1] = [some (1 / 20), some (1 / 20)] := by
    norm_num [radiiOf, maxOf, maxQ]
  have hshape : pack_bubbles hypC1 randC1 [1, 1] its =
      some ((iteratePass hypC1 randC1 (radiiOf [1, 1]) 2 its
              (initPositions randC1 2, 4)).1.map Prod.fst,
            (iteratePass hypC1 randC1 (radiiOf [1, 1]) 2 its
              (initPositions randC1 2, 4)).1.map Prod.snd) := rfl
  rw [hshape, hinit, hrad, iterC1 its 4 (by norm_num)]
  simp

/-- C1 counterexample: at the valid two-item input `[1, 1]` (radii `1/20`
each, so the packing easily fits the unit canvas) there is a random
stream — both items initialised to the same point and every
zero-distance redraw drawn with norm exactly `min_dist`, so the push
distance `min_dist - dist` is zero — for which the two items remain
coincident after EVERY iteration budget; no budget ever achieves pairwise
distance `≥ radius+radius+padding-ε` (taking `ε = 1/1000 < padding`). -/
theorem pack_bubbles_no_overlap_cex :
    ¬ ∃ N : ℕ, ∀ its : ℕ, N ≤ its → ∀ xs ys : List ℚ,
        pack_bubbles hypC1 randC1 [1, 1] its = some (xs, ys) →
        (xs.getD 1 0 - xs.getD 0 0) ^ 2 + (ys.getD 1 0 - ys.getD 0 0) ^ 2 ≥
          (1 / 20 + 1 / 20 + padding - 1 / 1000) ^ 2 := by
  rintro ⟨N, hN⟩
  have h := hN N (le_refl N) _ _ (packC1_const N)
  norm_num [padding] at h

theorem clip01_eq_self (x : ℚ) (h0 : 0 ≤ x) (h1 : x ≤ 1) : clip01 x = x := by
  unfold clip01
  rw [if_neg (by linarith), if_neg (by linarith)]

/-- C1 (amended): no-overlap is guaranteed only when the relaxation is
not degenerate.  For a two-item input whose items start at distinct
positions (certified distance `d > 0`) and whose single separating push
stays inside the canvas, EVERY budget of at least one pass returns the
exactly-separated layout: the squared distance equals
`(radius(0) + radius(1) + padding)²`, which meets the bound of the claim for
every tolerance `ε ≥ 0`.  (Without such non-degeneracy the claim fails
for every budget — see the counterexample.) -/
theorem pack_bubbles_two_item_exact (hyp : ℚ → ℚ → ℚ) (rand : ℕ → ℚ)
    (s0 s1 r0 r1 d x0 y0 x1 y1 nx0 ny0 nx1 ny1 : ℚ) (its : ℕ)
    (hr : radiiOf [s0, s1] = [some r0, some r1])
    (hx0 : rand 0 * (8 / 10) + 1 / 10 = x0)
    (hy0 : rand 1 * (8 / 10) + 1 / 10 = y0)
    (hx1 : rand 2 * (8 / 10) + 1 / 10 = x1)
    (hy1 : rand 3 * (8 / 10) + 1 / 10 = y1)
    (hd : hyp (x1 - x0) (y1 - y0) = d) (hdpos : 0 < d)
    (hcert : d ^ 2 = (x1 - x0) ^ 2 + (y1 - y0) ^ 2)
    (hov : d < r0 + r1 + padding)
    (hnx0 : x0 - (x1 - x0) / d * ((r0 + r1 + padding - d) / 2) = nx0)
    (hny0 : y0 - (y1 - y0) / d * ((r0 + r1 + padding - d) / 2) = ny0)
    (hnx1 : x1 + (x1 - x0) / d * ((r0 + r1 + padding - d) / 2) = nx1)
    (hny1 : y1 + (y1 - y0) / d * ((r0 + r1 + padding - d) / 2) = ny1)
    (hb : (0 ≤ nx0 ∧ nx0 ≤ 1) ∧ (0 ≤ ny0 ∧ ny0 ≤ 1) ∧
          (0 ≤ nx1 ∧ nx1 ≤ 1) ∧ (0 ≤ ny1 ∧ ny1 ≤ 1))
    (hd2 : hyp (nx1 - nx0) (ny1 - ny0) = r0 + r1 + padding)
    (hits : 1 ≤ its) :
    pack_bubbles hyp rand [s0, s1] its = some ([nx0, nx1], [ny0, ny1]) ∧
    (nx1 - nx0) ^ 2 + (ny1 - ny0) ^ 2 = (r0 + r1 + padding) ^ 2 := by
  obtain ⟨⟨hb1, hb2⟩, ⟨hb3, hb4⟩, ⟨hb5, hb6⟩, ⟨hb7, hb8⟩⟩ := hb
  have hd0 : d ≠ 0 := ne_of_gt hdpos
  have hstep1 : step hyp rand [some r0, some r1] ([(x0, y0), (x1, y1)], 4) (0, 1) =
      ([(nx0, ny0), (nx1, ny1)], 4) := by
    rw [step_fires_eval hyp rand [some r0, some r1] [(x0, y0), (x1, y1)] 4 0 1
      x0 y0 x1 y1 r0 r1 d rfl rfl rfl rfl hd hdpos hov]
    simp only [List.set]
    rw [hnx0, hny0, hnx1, hny1]
  have honep1 : onePass hyp rand [some r0, some r1] 2 ([(x0, y0), (x1, y1)], 4) =
      ([(nx0, ny0), (nx1, ny1)], 4) := by
    unfold onePass
    rw [show pairList 2 = [(0, 1)] from by decide]
    simp only [List.foldl_cons, List.foldl_nil]
    rw [hstep1]
    simp only [List.map_cons, List.map_nil]
    rw [clip01_eq_self nx0 hb1 hb2, clip01_eq_self ny0 hb3 hb4,
      clip01_eq_self nx1 hb5 hb6, clip01_eq_self ny1 hb7 hb8]
  have hstill : step hyp rand [some r0, some r1] ([(nx0, ny0), (nx1, ny1)], 4) (0, 1) =
      ([(nx0, ny0), (nx1, ny1)], 4) :=
    step_still_eval hyp rand [some r0, some r1] [(nx0, ny0), (nx1, ny1)] 4 0 1
      nx0 ny0 nx1 ny1 r0 r1 (r0 + r1 + padding) rfl rfl rfl rfl hd2
      (lt_irrefl _)
  have honfix : onePass hyp rand [some r0, some r1] 2 ([(nx0, ny0), (nx1, ny1)], 4) =
      ([(nx0, ny0), (nx1, ny1)], 4) := by
    unfold onePass
    rw [show pairList 2 = [(0, 1)] from by decide]
    simp only [List.foldl_cons, List.foldl_nil]
    rw [hstill]
    simp only [List.map_cons, List.map_nil]
    rw [clip01_eq_self nx0 hb1 hb2, clip01_eq_self ny0 hb3 hb4,
      clip01_eq_self nx1 hb5 hb6, clip01_eq_self ny1 hb7 hb8]
  have hiter : ∀ m, iteratePass hyp rand [some r0, some r1] 2 m
      ([(nx0, ny0), (nx1, ny1)], 4) = ([(nx0, ny0), (nx1, ny1)], 4) := by
    intro m
    induction m with
    | zero => rfl
    | succ n ih =>
      show iteratePass hyp rand [some r0, some r1] 2 n
        (onePass hyp rand [some r0, some r1] 2 ([(nx0, ny0), (nx1, ny1)], 4)) = _
      rw [honfix, ih]
  obtain ⟨m, rfl⟩ : ∃ m, its = m + 1 := ⟨its - 1, by omega⟩
  have hinit : initPositions rand 2 = [(x0, y0), (x1, y1)] := by
    unfold initPositions
    rw [show List.range 2 = [0, 1] from rfl]
    simp only [List.map_cons, List.map_nil]
    rw [show 2 * 0 = 0 from rfl, show 2 * 0 + 1 = 1 from rfl,
      show 2 * 1 = 2 from rfl, show 2 * 1 + 1 = 3 from rfl]
    rw [hx0, hy0, hx1, hy1]
  constructor
  · have hshape : pack_bubbles hyp rand [s0, s1] (m + 1) =
        some ((iteratePass hyp rand (radiiOf [s0, s1]) 2 (m + 1)
                (initPositions rand 2, 4)).1.map Prod.fst,
              (iteratePass hyp rand (radiiOf [s0, s1]) 2 (m + 1)
                (initPositions rand 2, 4)).1.map Prod.snd) := rfl
    rw [hshape, hinit, hr]
    have hfull : iteratePass hyp rand [some r0, some r1] 2 (m + 1)
        ([(x0, y0), (x1, y1)], 4) = ([(nx0, ny0), (nx1, ny1)], 4) := by
      show iteratePass hyp rand [some r0, some r1] 2 m
        (onePass hyp rand [some r0, some r1] 2 ([(x0, y0), (x1, y1)], 4)) = _
      rw [honep1, hiter m]
    rw [hfull]
    rfl
  · have hxsub : nx1 - nx0 = (x1 - x0) / d * (r0 + r1 + padding) := by
      rw [← hnx1, ← hnx0]
      field_simp
      ring
    have hysub : ny1 - ny0 = (y1 - y0) / d * (r0 + r1 + padding) := by
      rw [← hny1, ← hny0]
      field_simp
      ring
    rw [hxsub, hysub]
    exact norm_scale_sq _ _ _ _ hd0 hcert

/-- Witness for the amended C1: concrete two-item run, any budget `≥ 1`
(here `5`), ending exactly separated. -/
theorem pack_bubbles_two_item_exact_witness :
    pack_bubbles hypW randW [1, 1] 5 =
      some ([767 / 2000, 893 / 2000], [189 / 500, 231 / 500]) ∧
    ((893 : ℚ) / 2000 - 767 / 2000) ^ 2 + ((231 : ℚ) / 500 - 189 / 500) ^ 2 =
      (1 / 20 + 1 / 20 + padding) ^ 2 :=
  pack_bubbles_two_item_exact hypW randW 1 1 (1 / 20) (1 / 20) (1 / 20)
    (2 / 5) (2 / 5) (43 / 100) (44 / 100) (767 / 2000) (189 / 500)
    (893 / 2000) (231 / 500) 5
    (by norm_num [radiiOf, maxOf, maxQ])
    (by norm_num [randW]) (by norm_num [randW])
    (by norm_num [randW]) (by norm_num [randW])
    (by norm_num [hypW]) (by norm_num) (by norm_num) (by norm_num [padding])
    (by norm_num [padding]) (by norm_num [padding])
    (by norm_num [padding]) (by norm_num [padding])
    (by norm_num) (by norm_num [hypW, padding]) (by norm_num)

end Axelarscan
